import Mathlib

/-!
Verification of the London Musicals worker (Cloudflare Worker + D1 store).

This file gives a shallow embedding, in Lean 4, of the parts of the
repository that the specification talks about:

* the client-side availability predicate `isShowActive` (and the simpler
  variant shipped in `worker.js`), together with `getDayOfWeek` and
  `hasPerformance`;
* the run-id slug generator `generateRunId`;
* the bulk-import reconciler of `handleAdminAPI`
  (`POST /admin/api/musicals/import`), the single-record admin update
  (`PUT /admin/api/musicals/:id`) and create (`POST /admin/api/musicals`);
* the public listing query (`GET /api/musicals`) and the delete-all
  operation (`POST /admin/api/delete-all`).

Dates travel through the program as `YYYY-MM-DD` strings and are compared
with JavaScript string comparison, which is lexicographic on UTF-16 code
units; for the ASCII strings involved this is lexicographic comparison of
code points, embedded here as `strLe`.  JavaScript numbers reaching the
store are embedded as exact rationals: none of the verified claims depends
on IEEE-754 rounding, only on the distinction between null, NaN and an
ordinary numeric value.  The D1 store itself is an external collaborator;
rows are embedded as a list of records, `INSERT` appends, `UPDATE ... WHERE`
rewrites every matching record, and `SELECT ... .first()` takes the first
match.  Parameters are carried to the store over a JSON protocol, and JSON
has no representation for NaN or Infinity: `JSON.stringify` of a nonfinite
number produces `null`, so a nonfinite bind parameter is stored as NULL
(`storeNum` below).
-/

/-! ### JavaScript string comparison on date strings -/

/-- Lexicographic comparison of character lists by code point, the meaning
of the JavaScript `<=` operator on the ASCII strings this program compares
(JS compares UTF-16 code units, which agree with code points on ASCII). -/
def strLeAux : List Char → List Char → Bool
  | [], _ => true
  | _ :: _, [] => false
  | c :: cs, d :: ds =>
    if c.toNat < d.toNat then true
    else if d.toNat < c.toNat then false
    else strLeAux cs ds

/-- JavaScript `a <= b` on strings. -/
def strLe (a b : String) : Bool :=
  strLeAux a.data b.data

/-! ### Day-of-week computation (`getDayOfWeek` in the public page script) -/

/-- Decimal digit test, by code point. -/
def isDigitC (c : Char) : Bool :=
  48 ≤ c.toNat && c.toNat ≤ 57

/-- Numeric value of a list of decimal digits (most significant first). -/
def digitsNat (l : List Char) : Nat :=
  l.foldl (fun acc c => acc * 10 + (c.toNat - 48)) 0

/-- JavaScript `parseInt`, modelled on the nonnegative decimal strings that
splitting a well-formed `YYYY-MM-DD` date produces: the leading run of
decimal digits is read as a base-10 numeral. -/
def parseIntChars (l : List Char) : Nat :=
  digitsNat (l.takeWhile isDigitC)

/-- Splitting a character list on hyphens, the meaning of
`dateStr.split('-')`: adjacent separators produce empty parts, exactly as
in JavaScript. -/
def splitDashAux : List Char → List Char → List (List Char)
  | [], acc => [acc.reverse]
  | c :: rest, acc =>
    if c == '-' then acc.reverse :: splitDashAux rest []
    else splitDashAux rest (c :: acc)

/-- Day of week of a Gregorian calendar date in the JavaScript convention of
`Date.prototype.getDay` (0 = Sunday, ..., 6 = Saturday), via Zeller's
congruence; this is the value `new Date(y, m - 1, d).getDay()` computes for
an in-range month and day. -/
def jsGetDay (y m d : Nat) : Nat :=
  let m2 := if m ≤ 2 then m + 12 else m
  let y2 := if m ≤ 2 then y - 1 else y
  let K := y2 % 100
  let J := y2 / 100
  let h := (d + 13 * (m2 + 1) / 5 + K + K / 4 + J / 4 + 5 * J) % 7
  (h + 6) % 7

/-- Embedding of `getDayOfWeek(dateStr)`: split on `-`, `parseInt` the three
parts, and take the weekday of the resulting local date. -/
def getDayOfWeek (dateStr : String) : Nat :=
  let parts := splitDashAux dateStr.data []
  let y := parseIntChars (parts.getD 0 [])
  let m := parseIntChars (parts.getD 1 [])
  let d := parseIntChars (parts.getD 2 [])
  jsGetDay y m d

/-- The `dayKeys` array of `isShowActive`. -/
def dayKeys : List String :=
  ["sun", "mon", "tue", "wed", "thu", "fri", "sat"]

/-! ### Weekly schedule data and `isShowActive` -/

/-- Value found under `m` or `e` in a parsed schedule entry: a time string
in the new format, or a boolean in the old format.  Absence of the key and
a JSON `null` both make `hasPerformance` false and are embedded as `none`
at the use site. -/
inductive PerfTime where
  | timeStr (s : String)
  | timeBool (b : Bool)
deriving DecidableEq, Repr

/-- Embedding of `hasPerformance(value)`: a string counts when nonempty,
anything else by its JavaScript truthiness (`none` stands for a missing key
or JSON `null`, both falsy). -/
def hasPerformance : Option PerfTime → Bool
  | none => false
  | some (.timeStr s) => s.length > 0
  | some (.timeBool b) => b

/-- Parsed schedule entry for one weekday: the `m` (matinee) and `e`
(evening) members.  A key that is absent or bound to `null` is `none`. -/
structure DayEntry where
  m : Option PerfTime
  e : Option PerfTime
deriving DecidableEq, Repr

/-- Outcome of `JSON.parse(show.schedule)` inside `isShowActive`: either the
parse throws (malformed JSON) or it yields an object whose key/value pairs
are listed here.  A weekday key bound to a falsy value is `(key, none)`;
keys of a parsed JSON object are unique. -/
inductive SchedData where
  | parseFail
  | parsed (entries : List (String × Option DayEntry))
deriving DecidableEq, Repr

/-- Lookup `schedule[dayKey]` combined with the `!schedule[dayKey]` guard:
`none` when the key is missing or its value is falsy. -/
def lookupDay (entries : List (String × Option DayEntry)) (k : String) : Option DayEntry :=
  match entries.lookup k with
  | some (some en) => some en
  | _ => none

/-- Fields of a show object as the public page script sees it.  The
`schedule` column is a JSON string in the store; its `JSON.parse` outcome is
carried directly (`none` embeds a falsy `show.schedule`: null, undefined or
the empty string). -/
structure MusicalShow where
  start_date : String
  end_date : Option String
  schedule : Option SchedData
deriving DecidableEq, Repr

/-- The `show.end_date || '9999-12-31'` step of `isShowActive`: the
effective end of a run is its end date when present (a falsy end date being
embedded as `none`), else the far-future sentinel. -/
def effectiveEnd (s : MusicalShow) : String :=
  match s.end_date with
  | some e => e
  | none => "9999-12-31"

/-- The basic date-range check of `isShowActive`:
`start <= toDate && end >= fromDate`. -/
def baseActive (s : MusicalShow) (fromDate toDate : String) : Bool :=
  strLe s.start_date toDate && strLe fromDate (effectiveEnd s)

/-- Whether the parsed schedule lets the show play on the weekday of
`fromDate`: the negation of the filter-out condition
`!schedule[dayKey] || (!hasPerformance(m) && !hasPerformance(e))`. -/
def scheduleAllowsDay (entries : List (String × Option DayEntry)) (fromDate : String) : Bool :=
  match lookupDay entries (dayKeys.getD (getDayOfWeek fromDate) "") with
  | none => false
  | some en => hasPerformance en.m || hasPerformance en.e

/-- Embedding of `isShowActive(show, fromDate, toDate)` from the public page
script: the date-range overlap test, refined on single-day windows by the
weekly schedule, with a failed schedule parse treated as no restriction. -/
def isShowActive (s : MusicalShow) (fromDate toDate : String) : Bool :=
  if !(baseActive s fromDate toDate) then false
  else if fromDate == toDate then
    match s.schedule with
    | none => true
    | some .parseFail => true
    | some (.parsed entries) => scheduleAllowsDay entries fromDate
  else true

/-- Embedding of the `isShowActive(show, fromDate, toDate)` of `worker.js`,
which has no schedule refinement: `start <= toDate && end >= fromDate`. -/
def isShowActiveWorker (s : MusicalShow) (fromDate toDate : String) : Bool :=
  baseActive s fromDate toDate

/-! ### Well-formed date strings -/

/-- Well-formedness of a `YYYY-MM-DD` date string: ten characters, digits in
the year, month and day positions, literal hyphens between, month between 01
and 12 and day between 01 and 31.  Every calendar date the site handles is
of this shape. -/
def validDateChars : List Char → Bool
  | [y1, y2, y3, y4, h1, m1, m2, h2, d1, d2] =>
    isDigitC y1 && isDigitC y2 && isDigitC y3 && isDigitC y4 &&
    h1 == '-' && h2 == '-' &&
    isDigitC m1 && isDigitC m2 && isDigitC d1 && isDigitC d2 &&
    1 ≤ digitsNat [m1, m2] && digitsNat [m1, m2] ≤ 12 &&
    1 ≤ digitsNat [d1, d2] && digitsNat [d1, d2] ≤ 31
  | _ => false

/-- Well-formed `YYYY-MM-DD` date string. -/
def validDate (s : String) : Bool :=
  validDateChars s.data

/-- Comparison step when the first characters already differ in the right
direction: the smaller string wins immediately. -/
theorem strLeAux_cons_lt (c d : Char) (cs ds : List Char) (h : c.toNat < d.toNat) :
    strLeAux (c :: cs) (d :: ds) = true := by
  have e : strLeAux (c :: cs) (d :: ds) =
      if c.toNat < d.toNat then true
      else if d.toNat < c.toNat then false else strLeAux cs ds := rfl
  rw [e, if_pos h]

/-- Comparison step on equal first characters: the comparison moves to the
tails. -/
theorem strLeAux_cons_eq (c d : Char) (cs ds : List Char) (h : c.toNat = d.toNat) :
    strLeAux (c :: cs) (d :: ds) = strLeAux cs ds := by
  have e : strLeAux (c :: cs) (d :: ds) =
      if c.toNat < d.toNat then true
      else if d.toNat < c.toNat then false else strLeAux cs ds := rfl
  rw [e, if_neg (by omega), if_neg (by omega)]

/-- Every well-formed date string is at most the sentinel `9999-12-31` in
string order, so the sentinel really is a far-future date for every window
the site can be asked about. -/
theorem validDate_le_sentinel (s : String) (h : validDate s = true) :
    strLe s "9999-12-31" = true := by
  unfold validDate at h
  unfold strLe
  rcases s with ⟨cs⟩
  simp only [String.data] at h ⊢
  rcases cs with _ | ⟨y1, _ | ⟨y2, _ | ⟨y3, _ | ⟨y4, _ | ⟨h1, _ | ⟨m1, _ | ⟨m2, _ | ⟨h2, _ | ⟨d1, _ | ⟨d2, _ | ⟨e1, t⟩⟩⟩⟩⟩⟩⟩⟩⟩⟩⟩ <;>
    simp only [validDateChars, Bool.and_eq_true, beq_iff_eq, decide_eq_true_eq,
      isDigitC, digitsNat, List.foldl] at h
  all_goals try exact absurd h (by decide)
  obtain ⟨⟨⟨⟨⟨⟨⟨⟨⟨⟨⟨⟨⟨hy1, hy2⟩, hy3⟩, hy4⟩, hh1⟩, hh2⟩, hm1⟩, hm2⟩, hd1⟩, hd2⟩, hmlo⟩, hmhi⟩, hdlo⟩, hdhi⟩ := h
  subst hh1
  subst hh2
  have c9 : ('9' : Char).toNat = 57 := rfl
  have c1 : ('1' : Char).toNat = 49 := rfl
  have c2 : ('2' : Char).toNat = 50 := rfl
  have c3 : ('3' : Char).toNat = 51 := rfl
  by_cases k1 : y1.toNat < 57
  · exact strLeAux_cons_lt _ _ _ _ (by rw [c9]; exact k1)
  rw [strLeAux_cons_eq _ _ _ _ (by rw [c9]; omega)]
  by_cases k2 : y2.toNat < 57
  · exact strLeAux_cons_lt _ _ _ _ (by rw [c9]; exact k2)
  rw [strLeAux_cons_eq _ _ _ _ (by rw [c9]; omega)]
  by_cases k3 : y3.toNat < 57
  · exact strLeAux_cons_lt _ _ _ _ (by rw [c9]; exact k3)
  rw [strLeAux_cons_eq _ _ _ _ (by rw [c9]; omega)]
  by_cases k4 : y4.toNat < 57
  · exact strLeAux_cons_lt _ _ _ _ (by rw [c9]; exact k4)
  rw [strLeAux_cons_eq _ _ _ _ (by rw [c9]; omega)]
  rw [strLeAux_cons_eq _ _ _ _ rfl]
  by_cases k5 : m1.toNat < 49
  · exact strLeAux_cons_lt _ _ _ _ (by rw [c1]; exact k5)
  rw [strLeAux_cons_eq _ _ _ _ (by rw [c1]; omega)]
  by_cases k6 : m2.toNat < 50
  · exact strLeAux_cons_lt _ _ _ _ (by rw [c2]; exact k6)
  rw [strLeAux_cons_eq _ _ _ _ (by rw [c2]; omega)]
  rw [strLeAux_cons_eq _ _ _ _ rfl]
  by_cases k7 : d1.toNat < 51
  · exact strLeAux_cons_lt _ _ _ _ (by rw [c3]; exact k7)
  rw [strLeAux_cons_eq _ _ _ _ (by rw [c3]; omega)]
  by_cases k8 : d2.toNat < 49
  · exact strLeAux_cons_lt _ _ _ _ (by rw [c1]; exact k8)
  rw [strLeAux_cons_eq _ _ _ _ (by rw [c1]; omega)]
  rfl

/-! ### Run-id generation (`generateRunId`) -/

/-- Whitespace in the sense of the JavaScript regex class `\s`. -/
def isJsWs (c : Char) : Bool :=
  let n := c.toNat
  (9 ≤ n && n ≤ 13) || n == 32 || n == 160 || n == 5760 ||
  (8192 ≤ n && n ≤ 8202) || n == 8232 || n == 8233 || n == 8239 ||
  n == 8287 || n == 12288 || n == 65279

/-- Character class of `normalize`'s first `replace`: the source regex holds
two ASCII apostrophes, so exactly the apostrophe (code point 39) is
removed. -/
def isApostrophe (c : Char) : Bool :=
  c == Char.ofNat 39

/-- Character class kept by `normalize`'s second `replace`, the complement
of `[^a-z0-9\s-]`: lowercase ASCII letters, ASCII digits, `\s` whitespace
and the hyphen. -/
def isAllowedChar (c : Char) : Bool :=
  (97 ≤ c.toNat && c.toNat ≤ 122) || (48 ≤ c.toNat && c.toNat ≤ 57) ||
  isJsWs c || c == '-'

/-- Embedding of `.replace(/\s+/g, '-')`: every maximal run of whitespace
becomes a single hyphen. -/
def replaceWsRuns : List Char → List Char
  | [] => []
  | [c] => [if isJsWs c then '-' else c]
  | c :: d :: rest =>
    if isJsWs c && isJsWs d then replaceWsRuns (d :: rest)
    else (if isJsWs c then '-' else c) :: replaceWsRuns (d :: rest)

/-- Embedding of the fourth `replace` of `normalize`, which rewrites every
maximal run of hyphens to a single hyphen. -/
def collapseHyphens : List Char → List Char
  | [] => []
  | [c] => [c]
  | c :: d :: rest =>
    if c == '-' && d == '-' then collapseHyphens (d :: rest)
    else c :: collapseHyphens (d :: rest)

/-- Drop one leading hyphen when present. -/
def dropLeadingHyphen : List Char → List Char
  | [] => []
  | c :: rest => if c == '-' then rest else c :: rest

/-- Embedding of `.replace(/^-|-$/g, '')`: the global regex matches a
leading hyphen and a trailing hyphen at most once each, so one of each is
removed. -/
def trimHyphens (l : List Char) : List Char :=
  (dropLeadingHyphen (dropLeadingHyphen l).reverse).reverse

/-- Embedding of the inner `normalize` of `generateRunId`: lower-case,
remove apostrophes, remove characters outside `[a-z0-9\s-]`, turn
whitespace runs into hyphens, collapse hyphen runs, trim one hyphen from
each edge.  `Char.toLower` lower-cases exactly ASCII letters; the few
non-ASCII characters JavaScript additionally lower-cases are outside
`[a-z0-9\s-]` both before and after lower-casing and are removed by the
following step either way (the exotic compatibility letters that lower-case
into ASCII, such as the Kelvin sign, are not modelled). -/
def normalizeSlug (s : String) : String :=
  ⟨trimHyphens (collapseHyphens (replaceWsRuns
    (((s.data.map Char.toLower).filter (fun c => !isApostrophe c)).filter isAllowedChar)))⟩

/-- Embedding of `generateRunId(title, venueName, startDate)`: the two
normalized parts and the raw start date, joined by hyphens. -/
def generateRunId (title venueName startDate : String) : String :=
  normalizeSlug title ++ "-" ++ normalizeSlug venueName ++ "-" ++ startDate

/-! ### JavaScript `parseFloat` on exact rationals -/

/-- Result of `parseFloat`: an ordinary number (held exactly as a rational;
IEEE-754 rounding is not modelled and no claim depends on it), a signed
infinity, or NaN. -/
inductive JSNum where
  | num (q : ℚ)
  | inf (neg : Bool)
  | nan
deriving DecidableEq, Repr

/-- Value of a fraction-digit list, `digits / 10 ^ length`. -/
def digitsFrac (l : List Char) : ℚ :=
  (digitsNat l : ℚ) / 10 ^ l.length

/-- Exponent suffix of a decimal literal: `e` or `E`, an optional sign and
at least one digit.  When the suffix is absent or incomplete, `parseFloat`
stops before it and the exponent is zero. -/
def parseExpPart : List Char → Int
  | c :: rest =>
    if c == 'e' || c == 'E' then
      match rest with
      | d :: r2 =>
        if d == '+' then
          if (r2.takeWhile isDigitC).isEmpty then 0 else (digitsNat (r2.takeWhile isDigitC) : Int)
        else if d == '-' then
          if (r2.takeWhile isDigitC).isEmpty then 0 else -(digitsNat (r2.takeWhile isDigitC) : Int)
        else if isDigitC d then (digitsNat ((d :: r2).takeWhile isDigitC) : Int)
        else 0
      | [] => 0
    else 0
  | [] => 0

/-- Scale a mantissa by a power of ten. -/
def applyExp (m : ℚ) (e : Int) : ℚ :=
  if 0 ≤ e then m * 10 ^ e.toNat else m / 10 ^ (-e).toNat

/-- Longest decimal literal at the head of the list: integer digits, an
optional fraction, an optional exponent; anything after it is ignored, and
when no digit is found at all the result is NaN. -/
def parseDecimal (l : List Char) (neg : Bool) : JSNum :=
  let ip := l.takeWhile isDigitC
  let r1 := l.dropWhile isDigitC
  let fp :=
    match r1 with
    | c :: r2 => if c == '.' then r2.takeWhile isDigitC else []
    | [] => []
  let rexp :=
    match r1 with
    | c :: r2 => if c == '.' then r2.dropWhile isDigitC else r1
    | [] => []
  if ip.isEmpty && fp.isEmpty then .nan
  else
    let v := applyExp ((digitsNat ip : ℚ) + digitsFrac fp) (parseExpPart rexp)
    .num (if neg then -v else v)

/-- Unsigned body of `parseFloat`: a literal `Infinity` or a decimal
literal. -/
def parseDecimalOrInf (l : List Char) (neg : Bool) : JSNum :=
  if "Infinity".data.isPrefixOf l then .inf neg else parseDecimal l neg

/-- Embedding of the JavaScript builtin `parseFloat`: skip leading
whitespace, read an optional sign, then the longest `Infinity` or decimal
literal prefix; NaN when nothing numeric is found. -/
def jsParseFloat (s : String) : JSNum :=
  match s.data.dropWhile isJsWs with
  | c :: rest =>
    if c == '+' then parseDecimalOrInf rest false
    else if c == '-' then parseDecimalOrInf rest true
    else parseDecimalOrInf (c :: rest) false
  | [] => .nan

/-! ### Stored rows and bind-parameter conversion -/

/-- JavaScript value bound for a numeric import field, the expression
`row.x ? parseFloat(row.x) : null`: `none` is the JavaScript `null` (chosen
when the raw text is absent or empty, both falsy), otherwise the
`parseFloat` of the raw text. -/
def priceBind (raw : Option String) : Option JSNum :=
  match raw with
  | none => none
  | some s => if s == "" then none else some (jsParseFloat s)

/-- Value the store records for a bound numeric parameter.  Parameters
reach D1 over a JSON protocol and JSON has no NaN or Infinity:
`JSON.stringify` renders a nonfinite number as `null`, so only a finite
number is stored as a number. -/
def storedNum : Option JSNum → Option ℚ
  | none => none
  | some (.num q) => some q
  | some (.inf _) => none
  | some .nan => none

/-- Stored value of a numeric import field: the bind conversion after the
`row.x ? parseFloat(row.x) : null` expression. -/
def storedPrice (raw : Option String) : Option ℚ :=
  storedNum (priceBind raw)

/-- Embedding of `row.x || null` on an optional text field: an absent or
empty (falsy) value becomes NULL, anything else is stored as given. -/
def textBind (raw : Option String) : Option String :=
  match raw with
  | none => none
  | some s => if s == "" then none else some s

/-- Row of the import request body, as the CSV client produces it: every
header becomes a string field, missing cells becoming the empty string;
absent fields and empty strings are both falsy on the worker side and an
optional field holds `none` for either.  The required fields
(`title`, `venue_name`, `type`, `start_date`) are bound without a null
fallback and are embedded as plain strings; `type` is named `type_` because
`type` is reserved in Lean. -/
structure ImportRow where
  run_id : Option String
  title : String
  venue_name : String
  venue_address : Option String
  type_ : String
  start_date : String
  end_date : Option String
  description : Option String
  ticket_url : Option String
  price_from : Option String
  schedule : Option String
  lottery_url : Option String
  lottery_price : Option String
  rush_url : Option String
  rush_price : Option String
deriving DecidableEq, Repr

/-- The fourteen data columns the import statements write (everything of a
`musicals` row except the store-managed `id` and timestamps and the
`run_id` key). -/
structure RowFields where
  title : String
  venue_name : String
  venue_address : Option String
  type_ : String
  start_date : String
  end_date : Option String
  description : Option String
  ticket_url : Option String
  price_from : Option ℚ
  schedule : Option String
  lottery_url : Option String
  lottery_price : Option ℚ
  rush_url : Option String
  rush_price : Option ℚ
deriving DecidableEq, Repr

/-- Stored row of the `musicals` table: the auto-increment id, the
`run_id` natural key and the data columns.  The store-managed timestamps
carry no claim-relevant information and are omitted. -/
structure DBRow where
  id : Nat
  run_id : String
  fields : RowFields
deriving DecidableEq, Repr

/-- The `musicals` table, in storage order: `INSERT` appends. -/
abbrev Store := List DBRow

/-- Data columns an import row binds, after the falsy-to-null text
conversion and the numeric parse of the three price fields. -/
def importPayload (row : ImportRow) : RowFields :=
  { title := row.title
    venue_name := row.venue_name
    venue_address := textBind row.venue_address
    type_ := row.type_
    start_date := row.start_date
    end_date := textBind row.end_date
    description := textBind row.description
    ticket_url := textBind row.ticket_url
    price_from := storedPrice row.price_from
    schedule := textBind row.schedule
    lottery_url := textBind row.lottery_url
    lottery_price := storedPrice row.lottery_price
    rush_url := textBind row.rush_url
    rush_price := storedPrice row.rush_price }

/-- Embedding of the JavaScript `String.prototype.trim`, which strips the
whitespace class `\s` (plus line terminators, all inside `isJsWs`) from
both ends. -/
def jsTrim (s : String) : String :=
  ⟨((s.data.dropWhile isJsWs).reverse.dropWhile isJsWs).reverse⟩

/-- Run id the import uses for a row:
`(row.run_id && row.run_id.trim()) ? row.run_id.trim() : generateRunId(...)`,
so a present, non-blank `run_id` wins (trimmed) and anything else falls
back to the generated slug. -/
def effRunId (row : ImportRow) : String :=
  match row.run_id with
  | some s =>
    if jsTrim s == "" then generateRunId row.title row.venue_name row.start_date
    else jsTrim s
  | none => generateRunId row.title row.venue_name row.start_date

/-! ### Store operations and the import reconciler -/

/-- Embedding of `SELECT id FROM musicals WHERE run_id = ?` followed by
`.first()`: the first stored row carrying the run id. -/
def findByRunId (st : Store) (r : String) : Option DBRow :=
  st.find? (fun dr => dr.run_id == r)

/-- Embedding of the import `UPDATE musicals SET ... WHERE run_id = ?`:
every row whose `run_id` matches has its data columns replaced; `id` and
`run_id` are not in the SET list and stay as they are. -/
def updateStore (st : Store) (r : String) (p : RowFields) : Store :=
  st.map (fun dr => if dr.run_id == r then { dr with fields := p } else dr)

/-- Auto-increment id the store would assign next. -/
def nextId (st : Store) : Nat :=
  (st.map (fun dr => dr.id)).foldr max 0 + 1

/-- Embedding of `INSERT INTO musicals (...) VALUES (...)`: a fresh row is
appended with the next store-assigned id. -/
def insertStore (st : Store) (r : String) (p : RowFields) : Store :=
  st ++ [{ id := nextId st, run_id := r, fields := p }]

/-- Outcome of the body of the import loop on one row: a successful update,
a successful insert, or an exception caught by the per-row `catch`. -/
inductive RowOutcome where
  | okUpdated (st : Store)
  | okInserted (st : Store)
  | failed (msg : String)
deriving DecidableEq, Repr

/-- Body of the import loop on one row: resolve the run id, look it up,
update when found and insert when not.  The store operations of the
concrete embedding are total; `RowOutcome.failed` is reachable only through
the abstract processors `importLoop` is also stated over. -/
def processRow (st : Store) (row : ImportRow) : RowOutcome :=
  match findByRunId st (effRunId row) with
  | some _ => .okUpdated (updateStore st (effRunId row) (importPayload row))
  | none => .okInserted (insertStore st (effRunId row) (importPayload row))

/-- Response body of the import route: the `inserted` and `updated`
counters and the `errors` array of `{row: title, error: message}`
entries. -/
structure ImportResult where
  inserted : Nat
  updated : Nat
  errors : List (String × String)
deriving DecidableEq, Repr

/-- The `for (const row of records)` loop: rows processed one at a time in
input order, a caught failure appending an error entry labelled with the
row's title and leaving the store as it was.  The per-row body is a
parameter so that the loop's error isolation can be stated for an arbitrary
fallible store. -/
def importLoop (proc : Store → ImportRow → RowOutcome) :
    List ImportRow → ImportResult × Store → ImportResult × Store
  | [], acc => acc
  | row :: rest, (res, st) =>
    match proc st row with
    | .okInserted st2 => importLoop proc rest ({ res with inserted := res.inserted + 1 }, st2)
    | .okUpdated st2 => importLoop proc rest ({ res with updated := res.updated + 1 }, st2)
    | .failed msg =>
      importLoop proc rest ({ res with errors := res.errors ++ [(row.title, msg)] }, st)

/-- Embedding of the whole `POST /admin/api/musicals/import` handler body:
run the loop on the posted records with zeroed counters. -/
def importRecords (records : List ImportRow) (st : Store) : ImportResult × Store :=
  importLoop processRow records ({ inserted := 0, updated := 0, errors := [] }, st)

/-! ### Admin single-record create and update -/

/-- Body of a single-record admin request (`POST` or `PUT
/admin/api/musicals`): the same fields as an import row, except that the
admin page has already parsed the three price fields to numbers (or null)
before sending. -/
structure AdminData where
  title : String
  venue_name : String
  venue_address : Option String
  type_ : String
  start_date : String
  end_date : Option String
  description : Option String
  ticket_url : Option String
  price_from : Option ℚ
  schedule : Option String
  lottery_url : Option String
  lottery_price : Option ℚ
  rush_url : Option String
  rush_price : Option ℚ
deriving DecidableEq, Repr

/-- Embedding of `data.x || null` on an already numeric field: null stays
null and the falsy number zero also becomes null. -/
def numOrNull : Option ℚ → Option ℚ
  | some q => if q == 0 then none else some q
  | none => none

/-- Data columns bound by the admin create and update statements. -/
def adminPayload (d : AdminData) : RowFields :=
  { title := d.title
    venue_name := d.venue_name
    venue_address := textBind d.venue_address
    type_ := d.type_
    start_date := d.start_date
    end_date := textBind d.end_date
    description := textBind d.description
    ticket_url := textBind d.ticket_url
    price_from := numOrNull d.price_from
    schedule := textBind d.schedule
    lottery_url := textBind d.lottery_url
    lottery_price := numOrNull d.lottery_price
    rush_url := textBind d.rush_url
    rush_price := numOrNull d.rush_price }

/-- Embedding of `PUT /admin/api/musicals/:id`: the run id is recomputed
with `generateRunId` from the posted title, venue and start date and
written together with every data column, on the row with the given id. -/
def adminUpdate (st : Store) (tid : Nat) (d : AdminData) : Store :=
  st.map (fun dr =>
    if dr.id == tid then
      { dr with run_id := generateRunId d.title d.venue_name d.start_date,
                fields := adminPayload d }
    else dr)

/-- Embedding of `POST /admin/api/musicals`: insert with a freshly computed
run id. -/
def adminCreate (st : Store) (d : AdminData) : Store :=
  insertStore st (generateRunId d.title d.venue_name d.start_date) (adminPayload d)

/-! ### Public listing query and delete-all -/

/-- The fixed category enumeration of the public type filter. -/
def musicalTypes : List String :=
  ["West End", "Off West End", "Drama School"]

/-- The `WHERE start_date <= ? AND (end_date IS NULL OR end_date >= ?)`
condition of the public queries, with today's date on both sides. -/
def rowActiveToday (today : String) (dr : DBRow) : Bool :=
  strLe dr.fields.start_date today &&
    (match dr.fields.end_date with
     | none => true
     | some e => strLe today e)

/-- Embedding of the `GET /api/musicals` query: active rows, and when the
`type` parameter is present (non-null, non-empty) and inside the fixed
enumeration, only rows of that category.  The trailing
`ORDER BY type, title` reorders the selected rows identically on every
branch and carries no claim-relevant information, so the result is kept in
table order. -/
def apiMusicals (st : Store) (today : String) (typeParam : Option String) : List DBRow :=
  let base := st.filter (rowActiveToday today)
  match typeParam with
  | some t =>
    if t != "" && musicalTypes.contains t then base.filter (fun dr => dr.fields.type_ == t)
    else base
  | none => base

/-- Response of `POST /admin/api/delete-all`: the 401 `Invalid password`
rejection, or the `{deleted: n}` body. -/
inductive DeleteAllOutcome where
  | unauthorized
  | deleted (n : Nat)
deriving DecidableEq, Repr

/-- Embedding of `POST /admin/api/delete-all`: a body password differing
from the configured admin password is rejected with 401 before any store
access; an equal password runs `DELETE FROM musicals`, whose `meta.changes`
is the number of rows that were in the table. -/
def deleteAll (st : Store) (pw adminPw : String) : DeleteAllOutcome × Store :=
  if pw != adminPw then (.unauthorized, st)
  else (.deleted st.length, [])

/-! ### Availability lemmas -/

/-- A failed date-range check decides `isShowActive` negatively before any
schedule is consulted. -/
theorem isShowActive_base_false (s : MusicalShow) (f t : String)
    (hb : baseActive s f t = false) : isShowActive s f t = false := by
  simp [isShowActive, hb]

/-- On a single-day window with a schedule that parses, `isShowActive` is
the date-range check conjoined with the weekday having a performance. -/
theorem isShowActive_single_day_parsed (s : MusicalShow) (f : String)
    (entries : List (String × Option DayEntry))
    (hs : s.schedule = some (.parsed entries)) :
    isShowActive s f f = (baseActive s f f && scheduleAllowsDay entries f) := by
  cases hb : baseActive s f f
  · simp [isShowActive, hb]
  · simp [isShowActive, hb, hs]

/-- When the schedule parse fails, `isShowActive` is the date-range check
alone, on every window. -/
theorem isShowActive_parseFail (s : MusicalShow) (f t : String)
    (hs : s.schedule = some .parseFail) :
    isShowActive s f t = baseActive s f t := by
  cases hb : baseActive s f t
  · simp [isShowActive, hb]
  · by_cases hft : f = t
    · subst hft
      simp [isShowActive, hb, hs]
    · simp [isShowActive, hb, hft]

/-- With no schedule at all, `isShowActive` is the date-range check alone,
on every window. -/
theorem isShowActive_no_schedule (s : MusicalShow) (f t : String)
    (hs : s.schedule = none) :
    isShowActive s f t = baseActive s f t := by
  cases hb : baseActive s f t
  · simp [isShowActive, hb]
  · by_cases hft : f = t
    · subst hft
      simp [isShowActive, hb, hs]
    · simp [isShowActive, hb, hft]

/-! ### Reconciler analysis -/

/-- Store reached after one import row (the loop body never fails in the
concrete embedding, so the failed branch is inert). -/
def applyStore (st : Store) (row : ImportRow) : Store :=
  match processRow st row with
  | .okUpdated st2 => st2
  | .okInserted st2 => st2
  | .failed _ => st

/-- Store reached after a whole batch. -/
def runStore (rows : List ImportRow) (st : Store) : Store :=
  rows.foldl applyStore st

/-- Last row of a batch carrying a given run id: the payload that wins the
final write for that key. -/
def lastOcc (rows : List ImportRow) (r : String) : Option ImportRow :=
  rows.reverse.find? (fun row => effRunId row == r)

/-- Store with each row's data columns replaced by the winning payload of
the batch for its run id, rows of untouched run ids kept as they are. -/
def overwrite (st : Store) (rows : List ImportRow) : Store :=
  st.map (fun dr =>
    match lastOcc rows dr.run_id with
    | some row => { dr with fields := importPayload row }
    | none => dr)

/-- Run ids of the stored rows, in storage order. -/
def runIds (st : Store) : List String :=
  st.map (fun dr => dr.run_id)

/-- Presence of every batch row's run id in a store. -/
def allPresent (rows : List ImportRow) (st : Store) : Prop :=
  ∀ row ∈ rows, effRunId row ∈ runIds st

theorem lastOcc_cons (row : ImportRow) (rest : List ImportRow) (r : String) :
    lastOcc (row :: rest) r =
      (lastOcc rest r).or (if effRunId row == r then some row else none) := by
  unfold lastOcc
  rw [List.reverse_cons, List.find?_append]
  congr 1
  cases hp : (effRunId row == r) <;> simp [List.find?_cons, hp]

theorem lastOcc_eq_none (rows : List ImportRow) (r : String) :
    lastOcc rows r = none ↔ ∀ row ∈ rows, effRunId row ≠ r := by
  unfold lastOcc
  rw [List.find?_eq_none]
  constructor
  · intro h row hm
    have := h row (List.mem_reverse.mpr hm)
    simpa using this
  · intro h row hm
    have := h row (List.mem_reverse.mp hm)
    simpa using this

theorem overwrite_nil (st : Store) : overwrite st [] = st := by
  unfold overwrite lastOcc
  simp

theorem findByRunId_isSome_iff (st : Store) (r : String) :
    (findByRunId st r).isSome = true ↔ r ∈ runIds st := by
  unfold findByRunId runIds
  rw [List.find?_isSome]
  simp only [List.mem_map, beq_iff_eq]

theorem findByRunId_eq_none_iff (st : Store) (r : String) :
    findByRunId st r = none ↔ r ∉ runIds st := by
  rw [← findByRunId_isSome_iff]
  cases findByRunId st r <;> simp

theorem runIds_updateStore (st : Store) (r : String) (p : RowFields) :
    runIds (updateStore st r p) = runIds st := by
  unfold runIds updateStore
  rw [List.map_map]
  apply List.map_congr_left
  intro dr _
  by_cases h : (dr.run_id == r) = true <;> simp [Function.comp, h]

theorem runIds_insertStore (st : Store) (r : String) (p : RowFields) :
    runIds (insertStore st r p) = runIds st ++ [r] := by
  unfold runIds insertStore
  simp

/-- When the run id is present, the loop body is the update. -/
theorem processRow_of_present (st : Store) (row : ImportRow)
    (h : effRunId row ∈ runIds st) :
    processRow st row = .okUpdated (updateStore st (effRunId row) (importPayload row)) := by
  unfold processRow
  obtain ⟨dr, hdr⟩ := Option.isSome_iff_exists.mp ((findByRunId_isSome_iff st _).mpr h)
  rw [hdr]

/-- When the run id is absent, the loop body is the insert. -/
theorem processRow_of_absent (st : Store) (row : ImportRow)
    (h : effRunId row ∉ runIds st) :
    processRow st row = .okInserted (insertStore st (effRunId row) (importPayload row)) := by
  unfold processRow
  rw [(findByRunId_eq_none_iff st _).mpr h]

theorem applyStore_of_present (st : Store) (row : ImportRow)
    (h : effRunId row ∈ runIds st) :
    applyStore st row = updateStore st (effRunId row) (importPayload row) := by
  unfold applyStore
  rw [processRow_of_present st row h]

theorem applyStore_of_absent (st : Store) (row : ImportRow)
    (h : effRunId row ∉ runIds st) :
    applyStore st row = insertStore st (effRunId row) (importPayload row) := by
  unfold applyStore
  rw [processRow_of_absent st row h]

/-- A present run id stays present across one row. -/
theorem mem_runIds_applyStore (st : Store) (row : ImportRow) (x : String)
    (h : x ∈ runIds st) : x ∈ runIds (applyStore st row) := by
  by_cases hp : effRunId row ∈ runIds st
  · rwa [applyStore_of_present st row hp, runIds_updateStore]
  · rw [applyStore_of_absent st row hp, runIds_insertStore]
    exact List.mem_append_left _ h

/-- After its own row, a run id is present. -/
theorem effRunId_mem_applyStore (st : Store) (row : ImportRow) :
    effRunId row ∈ runIds (applyStore st row) := by
  by_cases hp : effRunId row ∈ runIds st
  · rwa [applyStore_of_present st row hp, runIds_updateStore]
  · rw [applyStore_of_absent st row hp, runIds_insertStore]
    exact List.mem_append_right _ (List.mem_singleton_self _)

/-- A present run id stays present across a batch. -/
theorem mem_runIds_runStore (rows : List ImportRow) (st : Store) (x : String)
    (h : x ∈ runIds st) : x ∈ runIds (runStore rows st) := by
  induction rows generalizing st with
  | nil => exact h
  | cons row rest ih => exact ih (applyStore st row) (mem_runIds_applyStore st row x h)

/-- After a batch, every one of its run ids is present. -/
theorem allPresent_runStore (rows : List ImportRow) (st : Store) :
    allPresent rows (runStore rows st) := by
  induction rows generalizing st with
  | nil => intro row hm; cases hm
  | cons row rest ih =>
    intro row2 hm
    rcases List.mem_cons.mp hm with he | ht
    · subst he
      exact mem_runIds_runStore rest (applyStore st row2) _
        (effRunId_mem_applyStore st row2)
    · exact ih (applyStore st row) row2 ht

/-- Running a batch whose run ids are all present is pure overwriting: the
store keeps its rows and each touched row ends with the payload of the last
batch row for its run id. -/
theorem runStore_allPresent (rows : List ImportRow) (st : Store)
    (h : allPresent rows st) : runStore rows st = overwrite st rows := by
  induction rows generalizing st with
  | nil => exact (overwrite_nil st).symm
  | cons row rest ih =>
    have hp : effRunId row ∈ runIds st := h row (List.mem_cons_self row rest)
    have hstep : runStore (row :: rest) st =
        runStore rest (updateStore st (effRunId row) (importPayload row)) := by
      unfold runStore
      rw [List.foldl_cons, applyStore_of_present st row hp]
    rw [hstep, ih (updateStore st (effRunId row) (importPayload row)) ?_]
    · unfold overwrite updateStore
      rw [List.map_map]
      apply List.map_congr_left
      rintro ⟨i, rid, flds⟩ _
      by_cases hr : (rid == effRunId row) = true
      · have hre : rid = effRunId row := beq_iff_eq.mp hr
        simp only [Function.comp, hr, if_pos, lastOcc_cons]
        cases hl : lastOcc rest rid
        · simp [hl, hre, Option.or]
        · simp [hl, Option.or]
      · have hre : effRunId row ≠ rid := fun e =>
          absurd (beq_iff_eq.mpr e.symm) (by simpa using hr)
        simp only [Function.comp, hr, if_neg, lastOcc_cons]
        cases hl : lastOcc rest rid
        · simp [hl, hre, Option.or]
        · simp [hl, Option.or]
    · intro row2 hm
      rw [runIds_updateStore]
      exact h row2 (List.mem_cons_of_mem row hm)

/-- Rows whose run id the batch never touches pass through a run
untouched. -/
theorem runStore_frame (rows : List ImportRow) (st : Store) (x : String)
    (hx : ∀ row ∈ rows, effRunId row ≠ x) :
    ∀ dr ∈ runStore rows st, dr.run_id = x → dr ∈ st := by
  induction rows generalizing st with
  | nil => intro dr hm _; exact hm
  | cons row rest ih =>
    intro dr hm hrid
    have hmid : dr ∈ applyStore st row := by
      refine ih (applyStore st row) ?_ dr ?_ hrid
      · intro row2 h2
        exact hx row2 (List.mem_cons_of_mem row h2)
      · simpa [runStore] using hm
    have hne : effRunId row ≠ x := hx row (List.mem_cons_self row rest)
    by_cases hp : effRunId row ∈ runIds st
    · rw [applyStore_of_present st row hp] at hmid
      unfold updateStore at hmid
      obtain ⟨dr0, hdr0, heq⟩ := List.mem_map.mp hmid
      by_cases hr : (dr0.run_id == effRunId row) = true
      · rw [if_pos hr] at heq
        exfalso
        apply hne
        rw [← hrid, ← heq]
        exact (beq_iff_eq.mp hr).symm
      · rw [if_neg hr] at heq
        exact heq ▸ hdr0
    · rw [applyStore_of_absent st row hp] at hmid
      unfold insertStore at hmid
      rcases List.mem_append.mp hmid with hin | hnew
      · exact hin
      · exfalso
        apply hne
        rw [← hrid]
        have hdr : dr = { id := nextId st, run_id := effRunId row, fields := importPayload row } := by
          simpa using hnew
        rw [hdr]

/-- A row carrying the run id of the batch row just applied holds that
row's payload. -/
theorem applyStore_head_fields (st : Store) (row : ImportRow) (dr : DBRow)
    (hm : dr ∈ applyStore st row) (hrid : dr.run_id = effRunId row) :
    dr.fields = importPayload row := by
  by_cases hp : effRunId row ∈ runIds st
  · rw [applyStore_of_present st row hp] at hm
    unfold updateStore at hm
    obtain ⟨dr0, hdr0, heq⟩ := List.mem_map.mp hm
    by_cases hr : (dr0.run_id == effRunId row) = true
    · rw [if_pos hr] at heq
      rw [← heq]
    · rw [if_neg hr] at heq
      exfalso
      refine absurd (beq_iff_eq.mpr ?_) hr
      rw [← heq] at hrid
      exact hrid
  · rw [applyStore_of_absent st row hp] at hm
    unfold insertStore at hm
    rcases List.mem_append.mp hm with hin | hnew
    · exfalso
      apply hp
      rw [← hrid]
      unfold runIds
      exact List.mem_map.mpr ⟨dr, hin, rfl⟩
    · have hdr : dr = { id := nextId st, run_id := effRunId row, fields := importPayload row } := by
        simpa using hnew
      rw [hdr]

/-- After a run, a stored row touched by the batch holds the payload of the
last batch row for its run id. -/
theorem runStore_last_write (rows : List ImportRow) (st : Store) (dr : DBRow)
    (row2 : ImportRow) (hm : dr ∈ runStore rows st)
    (hl : lastOcc rows dr.run_id = some row2) :
    dr.fields = importPayload row2 := by
  induction rows generalizing st with
  | nil => cases hl
  | cons row rest ih =>
    have hm2 : dr ∈ runStore rest (applyStore st row) := by
      simpa [runStore] using hm
    rw [lastOcc_cons] at hl
    cases hrest : lastOcc rest dr.run_id with
    | some row3 =>
      rw [hrest] at hl
      simp only [Option.or] at hl
      cases hl
      exact ih (applyStore st row) hm2 hrest
    | none =>
      rw [hrest] at hl
      simp only [Option.or] at hl
      by_cases hc : (effRunId row == dr.run_id) = true
      · rw [if_pos hc] at hl
        cases hl
        have hfr : ∀ row3 ∈ rest, effRunId row3 ≠ dr.run_id :=
          (lastOcc_eq_none rest dr.run_id).mp hrest
        have hmem : dr ∈ applyStore st row2 :=
          runStore_frame rest (applyStore st row2) dr.run_id hfr dr hm2 rfl
        exact applyStore_head_fields st row2 dr hmem (beq_iff_eq.mp hc).symm
      · rw [if_neg hc] at hl
        cases hl

/-- Running the same batch against its own output changes nothing: the
second pass rewrites each touched row with the payload it already holds. -/
theorem runStore_idem (rows : List ImportRow) (st : Store) :
    runStore rows (runStore rows st) = runStore rows st := by
  rw [runStore_allPresent rows (runStore rows st) (allPresent_runStore rows st)]
  unfold overwrite
  conv_rhs => rw [← List.map_id (runStore rows st)]
  apply List.map_congr_left
  intro dr hm
  cases hl : lastOcc rows dr.run_id with
  | none => rfl
  | some row2 =>
    have hf : dr.fields = importPayload row2 :=
      runStore_last_write rows st dr row2 hm hl
    cases dr
    simp only at hf
    simp [hf]

/-- The loop over an appended batch is the loop over the second part
started from the outcome of the first. -/
theorem importLoop_append (proc : Store → ImportRow → RowOutcome)
    (xs ys : List ImportRow) (acc : ImportResult × Store) :
    importLoop proc (xs ++ ys) acc = importLoop proc ys (importLoop proc xs acc) := by
  induction xs generalizing acc with
  | nil => rfl
  | cons row rest ih =>
    obtain ⟨res, st⟩ := acc
    show importLoop proc (row :: (rest ++ ys)) (res, st) = _
    cases h : proc st row <;> simp only [importLoop, h] <;> exact ih _

/-- The store the loop reaches does not depend on the counters it carries. -/
theorem importLoop_store_indep (proc : Store → ImportRow → RowOutcome)
    (rows : List ImportRow) :
    ∀ (res1 res2 : ImportResult) (st : Store),
      (importLoop proc rows (res1, st)).2 = (importLoop proc rows (res2, st)).2 := by
  induction rows with
  | nil => intro res1 res2 st; rfl
  | cons row rest ih =>
    intro res1 res2 st
    cases h : proc st row <;> simp only [importLoop, h] <;> exact ih _ _ _

/-- The concrete loop body never takes the failed branch. -/
theorem processRow_ne_failed (st : Store) (row : ImportRow) (msg : String) :
    processRow st row ≠ .failed msg := by
  unfold processRow
  cases hf : findByRunId st (effRunId row) <;> simp

/-- The store after the concrete loop is `runStore`. -/
theorem importLoop_processRow_store (rows : List ImportRow) (res : ImportResult) (st : Store) :
    (importLoop processRow rows (res, st)).2 = runStore rows st := by
  induction rows generalizing res st with
  | nil => rfl
  | cons row rest ih =>
    cases h : processRow st row with
    | okUpdated st2 =>
      simp only [importLoop, h]
      rw [ih]
      unfold runStore
      rw [List.foldl_cons]
      have ha : applyStore st row = st2 := by unfold applyStore; rw [h]
      rw [ha]
    | okInserted st2 =>
      simp only [importLoop, h]
      rw [ih]
      unfold runStore
      rw [List.foldl_cons]
      have ha : applyStore st row = st2 := by unfold applyStore; rw [h]
      rw [ha]
    | failed msg => exact absurd h (processRow_ne_failed st row msg)

/-- On a store already holding every run id of the batch, the loop reports
one update per row, no insert and no error. -/
theorem importLoop_all_updated (rows : List ImportRow) (res : ImportResult) (st : Store)
    (h : allPresent rows st) :
    importLoop processRow rows (res, st) =
      (⟨res.inserted, res.updated + rows.length, res.errors⟩, runStore rows st) := by
  induction rows generalizing res st with
  | nil => simp [importLoop, runStore]
  | cons row rest ih =>
    have hp : effRunId row ∈ runIds st := h row (List.mem_cons_self row rest)
    have hstep : importLoop processRow (row :: rest) (res, st) =
        importLoop processRow rest
          (⟨res.inserted, res.updated + 1, res.errors⟩,
           updateStore st (effRunId row) (importPayload row)) := by
      simp only [importLoop, processRow_of_present st row hp]
    rw [hstep, ih ⟨res.inserted, res.updated + 1, res.errors⟩ _ ?_]
    · have hn : res.updated + 1 + rest.length = res.updated + (row :: rest).length := by
        simp [List.length_cons]
        omega
      rw [show runStore (row :: rest) st =
          runStore rest (updateStore st (effRunId row) (importPayload row)) from by
        unfold runStore
        rw [List.foldl_cons, applyStore_of_present st row hp]]
      rw [hn]
    · intro row2 hm
      rw [runIds_updateStore]
      exact h row2 (List.mem_cons_of_mem row hm)

/-- On a store holding none of the batch's pairwise distinct run ids, the
loop reports one insert per row, no update and no error. -/
theorem importLoop_all_inserted (rows : List ImportRow) (res : ImportResult) (st : Store)
    (h : ∀ row ∈ rows, effRunId row ∉ runIds st)
    (hd : rows.Pairwise (fun a b => effRunId a ≠ effRunId b)) :
    importLoop processRow rows (res, st) =
      (⟨res.inserted + rows.length, res.updated, res.errors⟩, runStore rows st) := by
  induction rows generalizing res st with
  | nil => simp [importLoop, runStore]
  | cons row rest ih =>
    have hp : effRunId row ∉ runIds st := h row (List.mem_cons_self row rest)
    have hstep : importLoop processRow (row :: rest) (res, st) =
        importLoop processRow rest
          (⟨res.inserted + 1, res.updated, res.errors⟩,
           insertStore st (effRunId row) (importPayload row)) := by
      simp only [importLoop, processRow_of_absent st row hp]
    rw [hstep, ih ⟨res.inserted + 1, res.updated, res.errors⟩ _ ?_ (List.Pairwise.of_cons hd)]
    · have hn : res.inserted + 1 + rest.length = res.inserted + (row :: rest).length := by
        simp [List.length_cons]
        omega
      rw [show runStore (row :: rest) st =
          runStore rest (insertStore st (effRunId row) (importPayload row)) from by
        unfold runStore
        rw [List.foldl_cons, applyStore_of_absent st row hp]]
      rw [hn]
    · intro row2 hm
      rw [runIds_insertStore]
      intro hmem
      rcases List.mem_append.mp hmem with hin | hsing
      · exact h row2 (List.mem_cons_of_mem row hm) hin
      · have : effRunId row ≠ effRunId row2 :=
          (List.pairwise_cons.mp hd).1 row2 hm
        exact this ((List.mem_singleton.mp hsing).symm)

/-- Characters produced by the whitespace-run replacement: a hyphen, or a
non-whitespace character of the input. -/
theorem mem_replaceWsRuns :
    ∀ (l : List Char) (c : Char), c ∈ replaceWsRuns l →
      c = '-' ∨ (c ∈ l ∧ isJsWs c = false)
  | [], c, h => by simp [replaceWsRuns] at h
  | [d], c, h => by
    by_cases hw : isJsWs d = true
    · simp [replaceWsRuns, hw] at h
      exact Or.inl h
    · simp [replaceWsRuns, hw] at h
      refine Or.inr ⟨?_, ?_⟩
      · rw [h]
        exact List.mem_singleton_self d
      · rw [h]
        simpa using hw
  | a :: b :: rest, c, h => by
    by_cases hab : (isJsWs a && isJsWs b) = true
    · rw [show replaceWsRuns (a :: b :: rest) = replaceWsRuns (b :: rest) by
        rw [replaceWsRuns, if_pos hab]] at h
      rcases mem_replaceWsRuns (b :: rest) c h with hc | ⟨hm, hw⟩
      · exact Or.inl hc
      · exact Or.inr ⟨List.mem_cons_of_mem a hm, hw⟩
    · rw [show replaceWsRuns (a :: b :: rest) =
          (if isJsWs a then '-' else a) :: replaceWsRuns (b :: rest) by
        rw [replaceWsRuns, if_neg hab]] at h
      rcases List.mem_cons.mp h with hc | hc
      · by_cases hwa : isJsWs a = true
        · rw [if_pos hwa] at hc
          exact Or.inl hc
        · rw [if_neg hwa] at hc
          subst hc
          exact Or.inr ⟨List.mem_cons_self c (b :: rest), by simpa using hwa⟩
      · rcases mem_replaceWsRuns (b :: rest) c hc with hd | ⟨hm, hw⟩
        · exact Or.inl hd
        · exact Or.inr ⟨List.mem_cons_of_mem a hm, hw⟩

/-- Hyphen-run collapsing introduces no character. -/
theorem mem_collapseHyphens :
    ∀ (l : List Char) (c : Char), c ∈ collapseHyphens l → c ∈ l
  | [], c, h => h
  | [d], c, h => h
  | a :: b :: rest, c, h => by
    by_cases hab : (a == '-' && b == '-') = true
    · rw [show collapseHyphens (a :: b :: rest) = collapseHyphens (b :: rest) by
        rw [collapseHyphens, if_pos hab]] at h
      exact List.mem_cons_of_mem a (mem_collapseHyphens (b :: rest) c h)
    · rw [show collapseHyphens (a :: b :: rest) = a :: collapseHyphens (b :: rest) by
        rw [collapseHyphens, if_neg hab]] at h
      rcases List.mem_cons.mp h with hc | hc
      · exact hc ▸ List.mem_cons_self a (b :: rest)
      · exact List.mem_cons_of_mem a (mem_collapseHyphens (b :: rest) c hc)

/-- Dropping a leading hyphen introduces no character. -/
theorem mem_dropLeadingHyphen (l : List Char) (c : Char)
    (h : c ∈ dropLeadingHyphen l) : c ∈ l := by
  cases l with
  | nil => exact h
  | cons a rest =>
    by_cases ha : (a == '-') = true
    · rw [show dropLeadingHyphen (a :: rest) = rest by
        rw [dropLeadingHyphen, if_pos ha]] at h
      exact List.mem_cons_of_mem a h
    · rwa [show dropLeadingHyphen (a :: rest) = a :: rest by
        rw [dropLeadingHyphen, if_neg ha]] at h

/-- Edge-hyphen trimming introduces no character. -/
theorem mem_trimHyphens (l : List Char) (c : Char)
    (h : c ∈ trimHyphens l) : c ∈ l := by
  unfold trimHyphens at h
  have h1 := List.mem_reverse.mp h
  have h2 := mem_dropLeadingHyphen _ _ h1
  have h3 := List.mem_reverse.mp h2
  exact mem_dropLeadingHyphen _ _ h3

/-- Every character of a normalized slug part is a lowercase ASCII letter,
an ASCII digit, or a hyphen. -/
theorem normalizeSlug_chars (s : String) (c : Char)
    (hc : c ∈ (normalizeSlug s).data) :
    (97 ≤ c.toNat ∧ c.toNat ≤ 122) ∨ (48 ≤ c.toNat ∧ c.toNat ≤ 57) ∨ c = '-' := by
  unfold normalizeSlug at hc
  simp only [String.data] at hc
  have h1 := mem_trimHyphens _ _ hc
  have h2 := mem_collapseHyphens _ _ h1
  rcases mem_replaceWsRuns _ _ h2 with hd | ⟨hm, hw⟩
  · exact Or.inr (Or.inr hd)
  · have hallow := (List.mem_filter.mp hm).2
    simp only [isAllowedChar, Bool.or_eq_true, Bool.and_eq_true, decide_eq_true_eq,
      beq_iff_eq] at hallow
    rcases hallow with ((hl | hd) | hws) | hh
    · exact Or.inl hl
    · exact Or.inr (Or.inl hd)
    · rw [hws] at hw
      exact absurd hw (by simp)
    · exact Or.inr (Or.inr hh)

/-! ### Concrete fixtures used by the claim theorems -/

/-- The spec's availability example: a listing running through 2025. -/
def exShow : MusicalShow :=
  { start_date := "2025-01-01", end_date := some "2025-12-31", schedule := none }

/-- A weekly schedule with no entry for Wednesday. -/
def noWedEntries : List (String × Option DayEntry) :=
  [("mon", some { m := none, e := some (.timeStr "19:30") }),
   ("tue", some { m := none, e := some (.timeStr "19:30") }),
   ("thu", some { m := some (.timeStr "14:30"), e := some (.timeStr "19:30") })]

/-- A 2025-long listing whose schedule has no Wednesday entry. -/
def showNoWed : MusicalShow :=
  { start_date := "2025-01-01", end_date := some "2025-12-31",
    schedule := some (.parsed noWedEntries) }

/-- An open-ended run: no end date, no schedule. -/
def openRunShow : MusicalShow :=
  { start_date := "2025-01-01", end_date := none, schedule := none }

/-- An ordinary import row with a parsable price. -/
def rowWicked : ImportRow :=
  { run_id := none, title := "Wicked", venue_name := "Apollo Victoria Theatre",
    venue_address := none, type_ := "West End", start_date := "2006-09-27",
    end_date := some "2025-12-31", description := none, ticket_url := none,
    price_from := some "29.50", schedule := none, lottery_url := none,
    lottery_price := none, rush_url := none, rush_price := none }

/-- An import row whose price text parses to NaN. -/
def rowBadPrice : ImportRow :=
  { rowWicked with
    title := "Hamilton"
    start_date := "2017-12-06"
    price_from := some "not a number" }

/-- An import row with no price at all. -/
def rowCabaret : ImportRow :=
  { rowWicked with title := "Cabaret", start_date := "2021-11-15", price_from := none }

/-- An import row addressing an existing record through an explicit
`run_id` while carrying a different title. -/
def rowKeep : ImportRow :=
  { rowWicked with run_id := some "old-slug", title := "New Title", price_from := none }

/-- Data columns of a pre-existing stored record. -/
def oldFields : RowFields :=
  { title := "Old Title", venue_name := "Apollo Victoria Theatre",
    venue_address := none, type_ := "West End", start_date := "2006-09-27",
    end_date := none, description := none, ticket_url := none, price_from := none,
    schedule := none, lottery_url := none, lottery_price := none, rush_url := none,
    rush_price := none }

/-- A one-row store whose record keeps a legacy slug. -/
def storeOld : Store :=
  [{ id := 1, run_id := "old-slug", fields := oldFields }]

/-- A per-row processor that always fails, standing in for a store whose
operations throw. -/
def alwaysFail : Store → ImportRow → RowOutcome :=
  fun _ _ => .failed "store error"

/-- One loop step on a row whose processing fails: the error is recorded
under the row's title and the store is left as it was. -/
theorem importLoop_failed_step (proc : Store → ImportRow → RowOutcome)
    (ys : List ImportRow) (r : ImportRow) (res1 : ImportResult) (st1 : Store)
    (msg : String) (h : proc st1 r = .failed msg) :
    importLoop proc (r :: ys) (res1, st1) =
      importLoop proc ys ({ res1 with errors := res1.errors ++ [(r.title, msg)] }, st1) := by
  simp only [importLoop, h]

/-! ### The claims -/

/-- C1: for every listing and every window, `isShowActive` returns true
only if `start_date <= window_end` and the effective end (`end_date` when
present, else the sentinel `9999-12-31`) is at or after `window_start`;
in particular the listing running 2025-01-01..2025-12-31 is active for the
window [2025-06-01, 2025-06-01] and inactive for the window
[2026-01-01, 2026-01-01]. -/
theorem C1_overlap_necessary :
    (∀ (s : MusicalShow) (fromDate toDate : String),
        isShowActive s fromDate toDate = true →
        strLe s.start_date toDate = true ∧ strLe fromDate (effectiveEnd s) = true) ∧
    isShowActive exShow "2025-06-01" "2025-06-01" = true ∧
    isShowActive exShow "2026-01-01" "2026-01-01" = false := by
  refine ⟨?_, by decide, by decide⟩
  intro s f t h
  cases hb : baseActive s f t with
  | false =>
    rw [isShowActive_base_false s f t hb] at h
    cases h
  | true =>
    have hb2 := hb
    unfold baseActive at hb2
    simp only [Bool.and_eq_true] at hb2
    exact hb2

/-- Witness for C1 at the spec's own example listing and window. -/
theorem C1_overlap_necessary_witness :
    strLe exShow.start_date "2025-06-01" = true ∧
    strLe "2025-06-01" (effectiveEnd exShow) = true :=
  C1_overlap_necessary.1 exShow "2025-06-01" "2025-06-01" (by decide)

/-- C2: on a single-day window, a listing with a schedule that parses is
active exactly when the date-range check passes and the weekday of the
window maps to a schedule entry with at least one non-null performance
time; a listing whose schedule fails to parse is subject to the date-range
check alone (fail-open); and the listing with no Wednesday entry is
excluded on a single Wednesday (2025-06-04) but included over the full week
2025-06-02..2025-06-08. -/
theorem C2_single_day_schedule :
    (∀ (s : MusicalShow) (f : String) (entries : List (String × Option DayEntry)),
        s.schedule = some (.parsed entries) →
        isShowActive s f f = (baseActive s f f && scheduleAllowsDay entries f)) ∧
    (∀ (s : MusicalShow) (f t : String),
        s.schedule = some .parseFail → isShowActive s f t = baseActive s f t) ∧
    isShowActive showNoWed "2025-06-04" "2025-06-04" = false ∧
    isShowActive showNoWed "2025-06-02" "2025-06-08" = true :=
  ⟨isShowActive_single_day_parsed, isShowActive_parseFail, by decide, by decide⟩

/-- Witness for C2 on the Wednesday-less schedule and a single Wednesday. -/
theorem C2_single_day_schedule_witness :
    isShowActive showNoWed "2025-06-04" "2025-06-04" =
      (baseActive showNoWed "2025-06-04" "2025-06-04" &&
        scheduleAllowsDay noWedEntries "2025-06-04") :=
  C2_single_day_schedule.1 showNoWed "2025-06-04" noWedEntries rfl

/-- C3: a listing with no end date and no schedule is active, under both
availability predicates, for every window of well-formed dates whose end is
at or after the listing's start date, arbitrarily far in the future. -/
theorem C3_open_run_always_active :
    ∀ (s : MusicalShow) (fromDate toDate : String),
      s.end_date = none → s.schedule = none →
      validDate fromDate = true → validDate toDate = true →
      strLe s.start_date toDate = true →
      isShowActive s fromDate toDate = true ∧
      isShowActiveWorker s fromDate toDate = true := by
  intro s f t he hs hf ht hst
  have hbase : baseActive s f t = true := by
    unfold baseActive
    rw [hst, Bool.true_and]
    unfold effectiveEnd
    rw [he]
    exact validDate_le_sentinel f hf
  constructor
  · rw [isShowActive_no_schedule s f t hs, hbase]
  · exact hbase

/-- Witness for C3 on an open run queried seventy-eight centuries out. -/
theorem C3_open_run_always_active_witness :
    isShowActive openRunShow "9800-06-15" "9800-06-15" = true ∧
    isShowActiveWorker openRunShow "9800-06-15" "9800-06-15" = true :=
  C3_open_run_always_active openRunShow "9800-06-15" "9800-06-15" rfl rfl
    (by decide) (by decide) (by decide)

/-- C4: `generateRunId` on the spec's example evaluates to the fixed slug
`cabaret-kit-kat-club-2024-01-01` (determinism is inherent: the embedding is
a pure function of its three arguments); every character of a normalized
part is a lowercase ASCII letter, a digit or a hyphen; and the example
output carries no uppercase letter and no exclamation mark. -/
theorem C4_generateRunId_normalization :
    generateRunId "Cabaret!" "Kit-Kat Club" "2024-01-01" =
      "cabaret-kit-kat-club-2024-01-01" ∧
    (∀ (s : String) (c : Char), c ∈ (normalizeSlug s).data →
        (97 ≤ c.toNat ∧ c.toNat ≤ 122) ∨ (48 ≤ c.toNat ∧ c.toNat ≤ 57) ∨ c = '-') ∧
    (generateRunId "Cabaret!" "Kit-Kat Club" "2024-01-01").data.all
      (fun c => !(65 ≤ c.toNat && c.toNat ≤ 90) && !(c == '!')) = true :=
  ⟨by decide, normalizeSlug_chars, by decide⟩

/-- Witness for C4 on a character of the normalized example title. -/
theorem C4_generateRunId_normalization_witness :
    (97 ≤ ('c' : Char).toNat ∧ ('c' : Char).toNat ≤ 122) ∨
    (48 ≤ ('c' : Char).toNat ∧ ('c' : Char).toNat ≤ 57) ∨ ('c' : Char) = '-' :=
  C4_generateRunId_normalization.2.1 "Cabaret!" 'c' (by decide)

/-- C7: the three numeric import fields are bound through
`row.x ? parseFloat(row.x) : null` and the store's JSON bind conversion;
an absent or blank value is stored as NULL, a value whose `parseFloat` is
NaN is stored as NULL, and a number is stored only when the text genuinely
parses to that number, so an unparsable value is never stored as zero. -/
theorem C7_numeric_fields_null :
    (∀ row : ImportRow,
        (importPayload row).price_from = storedPrice row.price_from ∧
        (importPayload row).lottery_price = storedPrice row.lottery_price ∧
        (importPayload row).rush_price = storedPrice row.rush_price) ∧
    storedPrice none = none ∧
    storedPrice (some "") = none ∧
    (∀ s : String, jsParseFloat s = .nan → storedPrice (some s) = none) ∧
    (∀ (s : String) (q : ℚ), storedPrice (some s) = some q → jsParseFloat s = .num q) := by
  refine ⟨fun row => ⟨rfl, rfl, rfl⟩, rfl, by decide, ?_, ?_⟩
  · intro s h
    show storedNum (if s == "" then none else some (jsParseFloat s)) = none
    by_cases hs : (s == "") = true
    · rw [if_pos hs]
      rfl
    · rw [if_neg hs, h]
      rfl
  · intro s q h
    have h2 : storedNum (if s == "" then none else some (jsParseFloat s)) = some q := h
    by_cases hs : (s == "") = true
    · rw [if_pos hs] at h2
      cases h2
    · rw [if_neg hs] at h2
      cases hj : jsParseFloat s with
      | num qq =>
        rw [hj] at h2
        simp only [storedNum, Option.some.injEq] at h2
        rw [h2]
      | inf b =>
        rw [hj] at h2
        simp [storedNum] at h2
      | nan =>
        rw [hj] at h2
        simp [storedNum] at h2

/-- Witness for C7 on an unparsable price text. -/
theorem C7_numeric_fields_null_witness :
    storedPrice (some "not a number") = none :=
  C7_numeric_fields_null.2.2.2.1 "not a number" (by decide)

/-- C8: a `type` parameter outside the fixed three-element enumeration is
ignored by the public listing query: the response is exactly the one of a
request with no `type` parameter. -/
theorem C8_unknown_type_ignored :
    ∀ (st : Store) (today t : String),
      musicalTypes.contains t = false →
      apiMusicals st today (some t) = apiMusicals st today none := by
  intro st today t h
  have h2 : t ∉ musicalTypes := by simpa using h
  simp [apiMusicals, h2]

/-- Witness for C8 with the spec's `type=Opera` request. -/
theorem C8_unknown_type_ignored_witness :
    apiMusicals storeOld "2025-06-01" (some "Opera") =
      apiMusicals storeOld "2025-06-01" none :=
  C8_unknown_type_ignored storeOld "2025-06-01" "Opera" (by decide)

/-- C9: delete-all deletes every row and reports their number exactly when
the body password equals the configured admin password; otherwise it
answers 401 and the store is untouched. -/
theorem C9_delete_all_password_gate :
    ∀ (st : Store) (pw adminPw : String),
      (pw = adminPw → deleteAll st pw adminPw = (.deleted st.length, [])) ∧
      (pw ≠ adminPw → deleteAll st pw adminPw = (.unauthorized, st)) := by
  intro st pw apw
  constructor
  · intro h
    subst h
    simp [deleteAll]
  · intro h
    simp [deleteAll, h]

/-- Witness for C9 on a one-row store, with the right and a wrong
password. -/
theorem C9_delete_all_password_gate_witness :
    deleteAll storeOld "secret" "secret" = (.deleted 1, []) ∧
    deleteAll storeOld "wrong" "secret" = (.unauthorized, storeOld) :=
  ⟨(C9_delete_all_password_gate storeOld "secret" "secret").1 rfl,
   (C9_delete_all_password_gate storeOld "wrong" "secret").2 (by decide)⟩

/-- C10: an import update writes the data columns but leaves every stored
`run_id` unchanged, while the admin `PUT` (and `POST`) recompute the run id
from the posted title, venue and start date on every call; consequently a
record updated by run-id through the import can keep a stored `run_id`
different from `generateRunId` of its current fields, as the concrete
`old-slug` record shows. -/
theorem C10_import_update_keeps_run_id :
    (∀ (st : Store) (row : ImportRow) (st2 : Store),
        processRow st row = .okUpdated st2 → runIds st2 = runIds st) ∧
    (∀ (st : Store) (tid : Nat) (d : AdminData) (dr : DBRow),
        dr ∈ adminUpdate st tid d → dr.id = tid →
        dr.run_id = generateRunId d.title d.venue_name d.start_date) ∧
    (∀ (st : Store) (d : AdminData),
        adminCreate st d =
          st ++ [{ id := nextId st,
                   run_id := generateRunId d.title d.venue_name d.start_date,
                   fields := adminPayload d }]) ∧
    runIds (importRecords [rowKeep] storeOld).2 = ["old-slug"] ∧
    generateRunId rowKeep.title rowKeep.venue_name rowKeep.start_date ≠ "old-slug" := by
  refine ⟨?_, ?_, fun st d => rfl, by decide, by decide⟩
  · intro st row st2 h
    unfold processRow at h
    cases hf : findByRunId st (effRunId row) with
    | some dr0 =>
      rw [hf] at h
      cases h
      exact runIds_updateStore st (effRunId row) (importPayload row)
    | none =>
      rw [hf] at h
      cases h
  · intro st tid d dr hm hid
    unfold adminUpdate at hm
    obtain ⟨dr0, hdr0, heq⟩ := List.mem_map.mp hm
    by_cases hb : (dr0.id == tid) = true
    · rw [if_pos hb] at heq
      rw [← heq]
    · rw [if_neg hb] at heq
      refine absurd (beq_iff_eq.mpr ?_) hb
      rw [heq]
      exact hid

/-- Witness for C10: the import update on the `old-slug` record leaves the
stored run ids untouched. -/
theorem C10_import_update_keeps_run_id_witness :
    runIds (updateStore storeOld "old-slug" (importPayload rowKeep)) = runIds storeOld :=
  C10_import_update_keeps_run_id.1 storeOld rowKeep
    (updateStore storeOld "old-slug" (importPayload rowKeep)) (by decide)

/-- C5 counterexample: a batch of two identical rows against the empty
store reports one insert and one update, not two inserts, so the first run
on an empty store does not report every row as inserted. -/
theorem C5_counterexample_duplicate_rows :
    (importRecords [rowWicked, rowWicked] []).1 =
      { inserted := 1, updated := 1, errors := [] } ∧
    (importRecords [rowWicked, rowWicked] []).1.inserted ≠ 2 := by
  exact ⟨by decide, by decide⟩

/-- C5 as amended: re-running any batch against its own output leaves the
stored rows exactly as they were, the second run reporting zero inserts and
one update per row; the first run reports every row as inserted provided
the rows resolve to pairwise distinct run ids (without that proviso the
claim fails, see the counterexample); and the spec's one-row example
reports `{inserted := 1, updated := 0}` then `{inserted := 0,
updated := 1}`. -/
theorem C5_idempotent_upsert :
    (∀ (rows : List ImportRow) (st : Store),
        (importRecords rows (importRecords rows st).2).2 = (importRecords rows st).2) ∧
    (∀ (rows : List ImportRow) (st : Store),
        (importRecords rows (importRecords rows st).2).1 =
          { inserted := 0, updated := rows.length, errors := [] }) ∧
    (∀ rows : List ImportRow,
        rows.Pairwise (fun a b => effRunId a ≠ effRunId b) →
        (importRecords rows []).1 =
          { inserted := rows.length, updated := 0, errors := [] }) ∧
    (importRecords [rowWicked] []).1 = { inserted := 1, updated := 0, errors := [] } ∧
    (importRecords [rowWicked] (importRecords [rowWicked] []).2).1 =
      { inserted := 0, updated := 1, errors := [] } := by
  have hsecond : ∀ (rows : List ImportRow) (st : Store),
      importRecords rows (importRecords rows st).2 =
        ({ inserted := 0, updated := rows.length, errors := [] },
         (importRecords rows st).2) := by
    intro rows st
    unfold importRecords
    rw [importLoop_processRow_store rows _ st]
    rw [importLoop_all_updated rows { inserted := 0, updated := 0, errors := [] }
      (runStore rows st) (allPresent_runStore rows st)]
    rw [runStore_idem]
    simp
  refine ⟨?_, ?_, ?_, by decide, by decide⟩
  · intro rows st
    rw [hsecond rows st]
  · intro rows st
    rw [hsecond rows st]
  · intro rows hd
    unfold importRecords
    rw [importLoop_all_inserted rows _ [] ?_ hd]
    · simp
    · intro row hm
      simp [runIds]

/-- Witness for C5 on a two-row batch with distinct run ids. -/
theorem C5_idempotent_upsert_witness :
    (importRecords [rowWicked, rowCabaret] []).1 =
      { inserted := 2, updated := 0, errors := [] } :=
  C5_idempotent_upsert.2.2.1 [rowWicked, rowCabaret] (by decide)

/-- C6 counterexample: the three-row batch whose second row carries an
unparsable price is imported with three inserts and an empty errors list,
not with two inserts and an error entry: `parseFloat` never throws, it
yields NaN, which reaches the store as NULL. -/
theorem C6_counterexample_unparsable_price :
    (importRecords [rowWicked, rowBadPrice, rowCabaret] []).1 =
      { inserted := 3, updated := 0, errors := [] } ∧
    ¬((importRecords [rowWicked, rowBadPrice, rowCabaret] []).1.inserted = 2 ∧
      (importRecords [rowWicked, rowBadPrice, rowCabaret] []).1.errors ≠ []) := by
  exact ⟨by decide, by decide⟩

/-- C6 as amended: rows are processed independently in input order and a
row whose store operations fail is caught per-row — its error is recorded
under the row's title and the loop continues over the remaining rows from
the unchanged store; but an unparsable price is not such a failure:
`parseFloat` yields NaN (never an exception), NaN reaches the store as
NULL, and the spec's three-row example ends `{inserted := 3, updated := 0,
errors := []}` with the second row's price stored as NULL. -/
theorem C6_per_row_isolation :
    (∀ (proc : Store → ImportRow → RowOutcome) (xs ys : List ImportRow)
        (r : ImportRow) (res0 : ImportResult) (st : Store) (msg : String),
        proc (importLoop proc xs (res0, st)).2 r = .failed msg →
        importLoop proc (xs ++ r :: ys) (res0, st) =
          importLoop proc ys
            ({ (importLoop proc xs (res0, st)).1 with
                errors := (importLoop proc xs (res0, st)).1.errors ++ [(r.title, msg)] },
             (importLoop proc xs (res0, st)).2)) ∧
    jsParseFloat "not a number" = .nan ∧
    (importRecords [rowWicked, rowBadPrice, rowCabaret] []).1 =
      { inserted := 3, updated := 0, errors := [] } ∧
    (importRecords [rowWicked, rowBadPrice, rowCabaret] []).2.map
      (fun dr => (dr.fields.price_from).isSome) = [true, false, false] := by
  refine ⟨?_, by decide, by decide, by decide⟩
  intro proc xs ys r res0 st msg h
  rw [importLoop_append]
  exact importLoop_failed_step proc ys r _ _ msg h

/-- Witness for C6: a processor standing for a throwing store fails the
middle row of a three-row batch; the error is recorded under that row's
title and the remaining row is still processed. -/
theorem C6_per_row_isolation_witness :
    importLoop alwaysFail ([rowWicked] ++ rowBadPrice :: [rowCabaret])
        ({ inserted := 0, updated := 0, errors := [] }, []) =
      importLoop alwaysFail [rowCabaret]
        ({ (importLoop alwaysFail [rowWicked]
              ({ inserted := 0, updated := 0, errors := [] }, [])).1 with
            errors := (importLoop alwaysFail [rowWicked]
              ({ inserted := 0, updated := 0, errors := [] }, [])).1.errors ++
              [(rowBadPrice.title, "store error")] },
         (importLoop alwaysFail [rowWicked]
            ({ inserted := 0, updated := 0, errors := [] }, [])).2) :=
  C6_per_row_isolation.1 alwaysFail [rowWicked] [rowCabaret] rowBadPrice
    { inserted := 0, updated := 0, errors := [] } [] "store error" rfl
